import Mathlib

/-
Verification development for the scene container and parser registry of
packages/dev/core/src/abstractScene.ts (class AbstractScene).

The registry state consists of two plain JavaScript objects used as
string-keyed maps.  A JavaScript object with string keys preserves
insertion order for its own enumerable string properties, and an
assignment to an existing key replaces the value in place without moving
the key.  We therefore embed each registry object as an association list
of (name, parser) pairs, with an update operation that replaces in place
when the key is present and appends otherwise, and a lookup operation
that returns the first (unique, for reachable states) binding.
-/

namespace AbstractSceneSpec

/-- JavaScript object property assignment on a string-keyed object:
replace in place when the key is present, append otherwise. -/
def assocSet {P : Type} : List (String × P) → String → P → List (String × P)
  | [], n, p => [(n, p)]
  | (k, v) :: rest, n, p =>
    if k = n then (k, p) :: rest else (k, v) :: assocSet rest n p

/-- JavaScript object property read: the value bound to the key, or none. -/
def assocGet {P : Type} : List (String × P) → String → Option P
  | [], _ => none
  | (k, v) :: rest, n => if k = n then some v else assocGet rest n

/-- The static registry state of AbstractScene: the two private maps
_BabylonFileParsers and _IndividualBabylonFileParsers. -/
structure ParserRegistry (P Q : Type) where
  _BabylonFileParsers : List (String × P)
  _IndividualBabylonFileParsers : List (String × Q)

/-- The initial registry state: both maps are initialized to the empty
object literal in the source. -/
def emptyRegistry {P Q : Type} : ParserRegistry P Q := ⟨[], []⟩

/-- AbstractScene.AddParser: this._BabylonFileParsers[name] = parser. -/
def AddParser {P Q : Type} (reg : ParserRegistry P Q) (name : String) (parser : P) :
    ParserRegistry P Q :=
  { reg with _BabylonFileParsers := assocSet reg._BabylonFileParsers name parser }

/-- AbstractScene.GetParser: returns this._BabylonFileParsers[name] when the
truthiness test passes, null otherwise.  This simple model resolves the
read against the own entries only; the stored values are the registered
parser functions, which are always truthy, so among own entries the test
passes exactly when the key is bound.  A read that misses the own entries
falls through to the prototype chain of the object literal; that behavior
is modelled by GetParserJS further below, for the claims whose truth
depends on it. -/
def GetParser {P Q : Type} (reg : ParserRegistry P Q) (name : String) : Option P :=
  match assocGet reg._BabylonFileParsers name with
  | some p => some p
  | none => none

/-- AbstractScene.AddIndividualParser:
this._IndividualBabylonFileParsers[name] = parser. -/
def AddIndividualParser {P Q : Type} (reg : ParserRegistry P Q) (name : String) (parser : Q) :
    ParserRegistry P Q :=
  { reg with _IndividualBabylonFileParsers := assocSet reg._IndividualBabylonFileParsers name parser }

/-- AbstractScene.GetIndividualParser: same contract as GetParser on the
individual map. -/
def GetIndividualParser {P Q : Type} (reg : ParserRegistry P Q) (name : String) : Option Q :=
  match assocGet reg._IndividualBabylonFileParsers name with
  | some q => some q
  | none => none

theorem assocGet_assocSet_same {P : Type} (l : List (String × P)) (n : String) (p : P) :
    assocGet (assocSet l n p) n = some p := by
  induction l with
  | nil => simp [assocSet, assocGet]
  | cons hd tl ih =>
    by_cases h : hd.1 = n
    · simp [assocSet, assocGet, h]
    · simp [assocSet, assocGet, h, ih]

theorem assocGet_assocSet_ne {P : Type} (l : List (String × P)) (n m : String) (p : P)
    (h : m ≠ n) : assocGet (assocSet l n p) m = assocGet l m := by
  induction l with
  | nil =>
    simp only [assocSet, assocGet]
    rw [if_neg (Ne.symm h)]
  | cons hd tl ih =>
    obtain ⟨k, v⟩ := hd
    simp only [assocSet]
    by_cases hk : k = n
    · subst hk
      rw [if_pos rfl]
      simp only [assocGet]
      rw [if_neg (Ne.symm h), if_neg (Ne.symm h)]
    · rw [if_neg hk]
      simp only [assocGet]
      by_cases hm : k = m
      · rw [if_pos hm, if_pos hm]
      · rw [if_neg hm, if_neg hm, ih]

theorem assocGet_eq_none_of_not_mem {P : Type} (l : List (String × P)) (n : String)
    (h : n ∉ l.map Prod.fst) : assocGet l n = none := by
  induction l with
  | nil => rfl
  | cons hd tl ih =>
    obtain ⟨k, v⟩ := hd
    simp only [List.map_cons, List.mem_cons, not_or] at h
    simp only [assocGet]
    rw [if_neg (Ne.symm h.1)]
    exact ih h.2

theorem assocSet_keys_of_not_mem {P : Type} (l : List (String × P)) (n : String) (p : P)
    (h : n ∉ l.map Prod.fst) :
    (assocSet l n p).map Prod.fst = l.map Prod.fst ++ [n] := by
  induction l with
  | nil => simp [assocSet]
  | cons hd tl ih =>
    obtain ⟨k, v⟩ := hd
    simp only [List.map_cons, List.mem_cons, not_or] at h
    simp only [assocSet]
    rw [if_neg (Ne.symm h.1)]
    simp [ih h.2]

theorem assocSet_keys_of_mem {P : Type} (l : List (String × P)) (n : String) (p : P)
    (h : n ∈ l.map Prod.fst) :
    (assocSet l n p).map Prod.fst = l.map Prod.fst := by
  induction l with
  | nil => simp at h
  | cons hd tl ih =>
    obtain ⟨k, v⟩ := hd
    simp only [assocSet]
    by_cases hk : k = n
    · rw [if_pos hk]
      simp
    · rw [if_neg hk]
      simp only [List.map_cons, List.mem_cons] at h
      rcases h with h | h
      · exact absurd h.symm hk
      · simp [ih h]

theorem assocSet_keys_nodup {P : Type} (l : List (String × P)) (n : String) (p : P)
    (h : (l.map Prod.fst).Nodup) : ((assocSet l n p).map Prod.fst).Nodup := by
  by_cases hmem : n ∈ l.map Prod.fst
  · rw [assocSet_keys_of_mem l n p hmem]
    exact h
  · rw [assocSet_keys_of_not_mem l n p hmem]
    rw [List.nodup_append]
    refine ⟨h, List.nodup_singleton n, fun a ha hb => ?_⟩
    rw [List.mem_singleton] at hb
    subst hb
    exact hmem ha

theorem filter_eq_nil_of_not_mem {P : Type} (l : List (String × P)) (n : String)
    (h : n ∉ l.map Prod.fst) : l.filter (fun e => e.1 = n) = [] := by
  induction l with
  | nil => rfl
  | cons hd tl ih =>
    obtain ⟨k, v⟩ := hd
    simp only [List.map_cons, List.mem_cons, not_or] at h
    have hk : ¬(k = n) := Ne.symm h.1
    simp [List.filter_cons, hk, ih h.2]

theorem filter_assocSet {P : Type} (l : List (String × P)) (n : String) (p : P)
    (h : (l.map Prod.fst).Nodup) :
    (assocSet l n p).filter (fun e => e.1 = n) = [(n, p)] := by
  induction l with
  | nil => simp [assocSet, List.filter_cons]
  | cons hd tl ih =>
    obtain ⟨k, v⟩ := hd
    simp only [List.map_cons, List.nodup_cons] at h
    simp only [assocSet]
    by_cases hk : k = n
    · subst hk
      rw [if_pos rfl]
      have hnil : List.filter (fun e => decide (e.1 = k)) tl = [] :=
        filter_eq_nil_of_not_mem tl k h.1
      simp [List.filter_cons, hnil]
    · rw [if_neg hk]
      simp [List.filter_cons, hk, ih h.2]

/-- Claim C4: registering a parser under a name and then looking that name up
returns exactly the registered parser, for the whole-scene registry and for
the individual registry alike (identity round-trip), from any registry state. -/
theorem addParser_getParser_roundtrip {P Q : Type} (reg : ParserRegistry P Q)
    (n : String) (p : P) (q : Q) :
    GetParser (AddParser reg n p) n = some p ∧
    GetIndividualParser (AddIndividualParser reg n q) n = some q := by
  constructor
  · simp [GetParser, AddParser, assocGet_assocSet_same]
  · simp [GetIndividualParser, AddIndividualParser, assocGet_assocSet_same]

/-- Claim C5: after AddParser(n, p1) then AddParser(n, p2), lookup of n yields
p2 and the binding of p1 is gone: for any registry whose keys are duplicate
free (an invariant of every reachable state), the entries keyed by n in the
resulting map are exactly the single entry (n, p2), and the keys stay
duplicate free. -/
theorem addParser_overwrites {P Q : Type} (reg : ParserRegistry P Q)
    (n : String) (p1 p2 : P)
    (h : (reg._BabylonFileParsers.map Prod.fst).Nodup) :
    GetParser (AddParser (AddParser reg n p1) n p2) n = some p2 ∧
    (AddParser (AddParser reg n p1) n p2)._BabylonFileParsers.filter
      (fun e => e.1 = n) = [(n, p2)] ∧
    ((AddParser (AddParser reg n p1) n p2)._BabylonFileParsers.map Prod.fst).Nodup := by
  refine ⟨?_, ?_, ?_⟩
  · simp [GetParser, AddParser, assocGet_assocSet_same]
  · exact filter_assocSet _ n p2 (assocSet_keys_nodup _ n p1 h)
  · exact assocSet_keys_nodup _ n p2 (assocSet_keys_nodup _ n p1 h)

/-- Witness for claim C5 at a concrete registry. -/
theorem addParser_overwrites_witness :
    ((([("a", 10)] : List (String × Nat)).map Prod.fst).Nodup) ∧
    GetParser (AddParser (AddParser (⟨[("a", 10)], []⟩ : ParserRegistry Nat Nat) "x" 1) "x" 2) "x"
      = some 2 := by
  have h : (([("a", 10)] : List (String × Nat)).map Prod.fst).Nodup := by decide
  exact ⟨h, (addParser_overwrites (⟨[("a", 10)], []⟩ : ParserRegistry Nat Nat) "x" 1 2 h).1⟩

/-
AbstractScene.Parse.  A whole-scene parser receives the parsed data, the
scene reference, the container reference and the root url, and mutates the
world through the scene and container references; it may also throw.  We
embed a parser semantically as a function from the four arguments and the
current world state to the new world state paired with an optional thrown
exception: a JavaScript throw leaves all mutations already performed in
place, so the state at the point of the throw is part of the result.
D is the type of the parsed data, S and C are the opaque scene and
container references, E is the exception type and W the world state.
-/

/-- Semantic type of a whole-scene parser body (see the comment above). -/
def ParserEffect (D S C E W : Type) : Type := D → S → C → String → W → W × Option E

/-- The body of AbstractScene.Parse: iterate the own properties of
_BabylonFileParsers in the map's iteration order and call each parser with
the four arguments Parse received; a thrown exception stops the loop and
propagates. -/
def ParseLoop {D S C E W : Type} :
    List (String × ParserEffect D S C E W) → D → S → C → String → W → W × Option E
  | [], _, _, _, _, w => (w, none)
  | (_, p) :: rest, jsonData, scene, container, rootUrl, w =>
    match p jsonData scene container rootUrl w with
    | (w', none) => ParseLoop rest jsonData scene container rootUrl w'
    | (w', some e) => (w', some e)

/-- AbstractScene.Parse on a registry whose whole-scene parsers have the
semantic type ParserEffect. -/
def Parse {D S C E W Q : Type} (reg : ParserRegistry (ParserEffect D S C E W) Q)
    (jsonData : D) (scene : S) (container : C) (rootUrl : String) (w : W) :
    W × Option E :=
  ParseLoop reg._BabylonFileParsers jsonData scene container rootUrl w

/-- Sequential execution of a list of already-applied calls: each call is a
state transformer that may throw; the first thrown exception stops the run
and is returned together with the state at that point. -/
def runCalls {E W : Type} : List (W → W × Option E) → W → W × Option E
  | [], w => (w, none)
  | f :: fs, w =>
    match f w with
    | (w', none) => runCalls fs w'
    | (w', some e) => (w', some e)

theorem ParseLoop_eq_runCalls {D S C E W : Type}
    (l : List (String × ParserEffect D S C E W)) (jsonData : D) (scene : S)
    (container : C) (rootUrl : String) (w : W) :
    ParseLoop l jsonData scene container rootUrl w =
      runCalls (l.map (fun entry => entry.2 jsonData scene container rootUrl)) w := by
  induction l generalizing w with
  | nil => rfl
  | cons hd tl ih =>
    obtain ⟨nm, p⟩ := hd
    simp only [ParseLoop, List.map_cons, runCalls]
    rcases hp : p jsonData scene container rootUrl w with ⟨w', oe⟩
    rcases oe with _ | e
    · exact ih w'
    · rfl

/-- Claim C1: Parse is exactly the sequential run of one call per currently
registered whole-scene parser, taken in the registry's iteration order, each
call receiving precisely the four arguments given to Parse; the list of
calls is the registry list itself mapped over those fixed arguments, so each
registered parser is invoked exactly once and nothing is filtered on the
contents of the data. -/
theorem parse_invokes_each_parser_once {D S C E W Q : Type}
    (reg : ParserRegistry (ParserEffect D S C E W) Q) (jsonData : D) (scene : S)
    (container : C) (rootUrl : String) (w : W) :
    Parse reg jsonData scene container rootUrl w =
      runCalls (reg._BabylonFileParsers.map
        (fun entry => entry.2 jsonData scene container rootUrl)) w :=
  ParseLoop_eq_runCalls reg._BabylonFileParsers jsonData scene container rootUrl w

/-- Claim C2: with three registered parsers, if the first succeeds taking the
world from w0 to w1 and the second throws err leaving the world at w2, then
Parse returns exactly (w2, some err): the exception propagates unchanged,
the mutations made before the failure are kept (no rollback), and the result
does not depend on the third parser, which is therefore never invoked. -/
theorem parse_fail_fast {D S C E W Q : Type} (n1 n2 n3 : String)
    (p1 p2 p3 : ParserEffect D S C E W) (ind : List (String × Q))
    (jsonData : D) (scene : S) (container : C) (rootUrl : String)
    (w0 w1 w2 : W) (err : E)
    (h1 : p1 jsonData scene container rootUrl w0 = (w1, none))
    (h2 : p2 jsonData scene container rootUrl w1 = (w2, some err)) :
    Parse (⟨[(n1, p1), (n2, p2), (n3, p3)], ind⟩ :
        ParserRegistry (ParserEffect D S C E W) Q)
      jsonData scene container rootUrl w0 = (w2, some err) := by
  simp [Parse, ParseLoop, h1, h2]

/-- Witness for claim C2: three concrete parsers over a world that logs the
calls; the first logs 1, the second logs 2 and throws, the third logs 3.
Parse stops with log [1, 2] and the thrown value, and the third parser is
not run. -/
theorem parse_fail_fast_witness :
    ((fun _ _ _ _ w => (w ++ [1], none)) : ParserEffect Nat Nat Nat Nat (List Nat))
        0 0 0 "" [] = ([1], none) ∧
    ((fun _ _ _ _ w => (w ++ [2], some 7)) : ParserEffect Nat Nat Nat Nat (List Nat))
        0 0 0 "" [1] = ([1, 2], some 7) ∧
    Parse (⟨[("a", fun _ _ _ _ w => (w ++ [1], none)),
             ("b", fun _ _ _ _ w => (w ++ [2], some 7)),
             ("c", fun _ _ _ _ w => (w ++ [3], none))], []⟩ :
        ParserRegistry (ParserEffect Nat Nat Nat Nat (List Nat)) Nat)
      0 0 0 "" [] = ([1, 2], some 7) := by
  refine ⟨rfl, rfl, ?_⟩
  exact parse_fail_fast "a" "b" "c"
    (fun _ _ _ _ w => (w ++ [1], none))
    (fun _ _ _ _ w => (w ++ [2], some 7))
    (fun _ _ _ _ w => (w ++ [3], none))
    [] 0 0 0 "" [] [1] [1, 2] 7 rfl rfl

/-
The instance side of AbstractScene: the categorized entity sequences and
the environment texture reference.  Entities are opaque references; we use
one type parameter for all of them, since the container only stores and
concatenates references.  A skeleton carries its ordered list of bones.
Every default value mirrors the field initializer in the source: each of
the sixteen sequence fields is initialized to a fresh empty array, and
_environmentTexture to null.
-/

/-- A skeleton as seen by AbstractScene.getNodes: an ordered list of bones. -/
structure Skeleton (α : Type) where
  bones : List α

/-- The instance state of AbstractScene: its categorized sequences, in source
declaration order, and the protected _environmentTexture reference. -/
structure AbstractScene (α : Type) where
  rootNodes : List α := []
  cameras : List α := []
  lights : List α := []
  meshes : List α := []
  skeletons : List (Skeleton α) := []
  particleSystems : List α := []
  animations : List α := []
  animationGroups : List α := []
  multiMaterials : List α := []
  materials : List α := []
  morphTargetManagers : List α := []
  geometries : List α := []
  transformNodes : List α := []
  actionManagers : List α := []
  textures : List α := []
  _environmentTexture : Option α := none
  postProcesses : List α := []

/-- A freshly constructed container: every field holds its initializer. -/
def freshScene {α : Type} : AbstractScene α := {}

/-- The environmentTexture getter: returns this._environmentTexture. -/
def getEnvironmentTexture {α : Type} (s : AbstractScene α) : Option α :=
  s._environmentTexture

/-- The environmentTexture setter: this._environmentTexture = value. -/
def setEnvironmentTexture {α : Type} (s : AbstractScene α) (value : Option α) :
    AbstractScene α :=
  { s with _environmentTexture := value }

/-- AbstractScene.getNodes: start from a fresh empty array, concat meshes,
lights, cameras and transformNodes in that order, then for each skeleton in
order concat its bones, and return the accumulated array. -/
def getNodes {α : Type} (s : AbstractScene α) : List α :=
  let nodes : List α := []
  let nodes := nodes ++ s.meshes
  let nodes := nodes ++ s.lights
  let nodes := nodes ++ s.cameras
  let nodes := nodes ++ s.transformNodes
  s.skeletons.foldl (fun ns skeleton => ns ++ skeleton.bones) nodes

theorem foldl_concat_bones {α : Type} (sks : List (Skeleton α)) (init : List α) :
    sks.foldl (fun ns skeleton => ns ++ skeleton.bones) init =
      init ++ (sks.map Skeleton.bones).flatten := by
  induction sks generalizing init with
  | nil => simp
  | cons hd tl ih =>
    simp [List.foldl_cons, ih, List.append_assoc]

/-- Claim C3: getNodes returns exactly the concatenation of meshes, then
lights, then cameras, then transform nodes, then the bones of each skeleton
in stored order — with no deduplication and with no dependence on any of the
other categorized fields, which are universally quantified here and absent
from the right-hand side. -/
theorem getNodes_concatenation {α : Type} (s : AbstractScene α) :
    getNodes s =
      s.meshes ++ s.lights ++ s.cameras ++ s.transformNodes ++
        (s.skeletons.map Skeleton.bones).flatten := by
  simp [getNodes, foldl_concat_bones, List.append_assoc]

/-- Claim C8: setting the environment texture reference and then reading it
returns exactly the value that was set, and a freshly constructed container
reads as none before any set. -/
theorem environmentTexture_roundtrip {α : Type} :
    (∀ (s : AbstractScene α) (v : Option α),
      getEnvironmentTexture (setEnvironmentTexture s v) = v) ∧
    getEnvironmentTexture (freshScene : AbstractScene α) = none :=
  ⟨fun _ _ => rfl, rfl⟩

/-- The lengths of the categorized sequences of a container, one entry per
sequence field, in source declaration order. -/
def categorizedSequenceLengths {α : Type} (s : AbstractScene α) : List Nat :=
  [s.rootNodes.length, s.cameras.length, s.lights.length, s.meshes.length,
   s.skeletons.length, s.particleSystems.length, s.animations.length,
   s.animationGroups.length, s.multiMaterials.length, s.materials.length,
   s.morphTargetManagers.length, s.geometries.length, s.transformNodes.length,
   s.actionManagers.length, s.textures.length, s.postProcesses.length]

/-- Counterexample for claim C10 as stated: a freshly constructed container
has sixteen categorized sequences, not seventeen. -/
theorem freshScene_not_seventeen_sequences :
    (categorizedSequenceLengths (freshScene : AbstractScene Unit)).length = 16 ∧
    (16 : Nat) ≠ 17 := by
  constructor
  · rfl
  · decide

/-- Claim C10 (amended: sixteen sequences, not seventeen): a freshly
constructed container has every one of its sixteen categorized sequences
empty and its environment texture reference absent, and getNodes on it
returns the empty sequence. -/
theorem freshScene_empty {α : Type} :
    (freshScene : AbstractScene α).rootNodes = [] ∧
    (freshScene : AbstractScene α).cameras = [] ∧
    (freshScene : AbstractScene α).lights = [] ∧
    (freshScene : AbstractScene α).meshes = [] ∧
    (freshScene : AbstractScene α).skeletons = [] ∧
    (freshScene : AbstractScene α).particleSystems = [] ∧
    (freshScene : AbstractScene α).animations = [] ∧
    (freshScene : AbstractScene α).animationGroups = [] ∧
    (freshScene : AbstractScene α).multiMaterials = [] ∧
    (freshScene : AbstractScene α).materials = [] ∧
    (freshScene : AbstractScene α).morphTargetManagers = [] ∧
    (freshScene : AbstractScene α).geometries = [] ∧
    (freshScene : AbstractScene α).transformNodes = [] ∧
    (freshScene : AbstractScene α).actionManagers = [] ∧
    (freshScene : AbstractScene α).textures = [] ∧
    (freshScene : AbstractScene α).postProcesses = [] ∧
    getEnvironmentTexture (freshScene : AbstractScene α) = none ∧
    getNodes (freshScene : AbstractScene α) = [] :=
  ⟨rfl, rfl, rfl, rfl, rfl, rfl, rfl, rfl, rfl, rfl, rfl, rfl, rfl, rfl, rfl,
   rfl, rfl, rfl⟩

/-
Allocation-level embedding of getNodes, for the freshness and snapshot
claims.  JavaScript arrays are heap objects handled by reference: the
container fields hold references, new Array() allocates a fresh array, and
Array.prototype.concat reads its operands and allocates a fresh result.
We model the heap as a list of arrays addressed by index; allocation
appends at the end, so a reference is valid when it is below the heap
length, and every reference returned by an allocation is distinct from all
previously valid references.
-/

/-- A heap of arrays of node references; a reference is an index. -/
structure Heap (ν : Type) where
  arrays : List (List ν)

/-- Read the array at a reference (an invalid reference reads as empty). -/
def readList {ν : Type} : List (List ν) → Nat → List ν
  | [], _ => []
  | a :: _, 0 => a
  | _ :: rest, r + 1 => readList rest r

def readArr {ν : Type} (h : Heap ν) (r : Nat) : List ν :=
  readList h.arrays r

/-- Allocate a fresh array holding the given contents; returns the new heap
and the reference to the new array. -/
def allocArr {ν : Type} (h : Heap ν) (contents : List ν) : Heap ν × Nat :=
  (⟨h.arrays ++ [contents]⟩, h.arrays.length)

/-- Overwrite the array at a reference (a mutation of an existing array). -/
def writeList {ν : Type} : List (List ν) → Nat → List ν → List (List ν)
  | [], _, _ => []
  | _ :: rest, 0, x => x :: rest
  | a :: rest, r + 1, x => a :: writeList rest r x

def writeArr {ν : Type} (h : Heap ν) (r : Nat) (contents : List ν) : Heap ν :=
  ⟨writeList h.arrays r contents⟩

/-- Array.prototype.concat: reads both arrays and allocates a fresh array
holding the concatenation of their contents. -/
def concatArr {ν : Type} (h : Heap ν) (r src : Nat) : Heap ν × Nat :=
  allocArr h (readArr h r ++ readArr h src)

/-- The container state at the allocation level: one reference per stored
array.  skeletonBones lists the bones-array references of the skeletons in
stored order, and others collects the references of the remaining stored
sequences (rootNodes, particleSystems, animations, animationGroups,
multiMaterials, materials, morphTargetManagers, geometries, actionManagers,
textures, postProcesses). -/
structure HeapScene where
  meshes : Nat
  lights : Nat
  cameras : Nat
  transformNodes : Nat
  skeletonsArr : Nat
  skeletonBones : List Nat
  others : List Nat

/-- Every array reference stored in the container. -/
def storedRefs (s : HeapScene) : List Nat :=
  s.meshes :: s.lights :: s.cameras :: s.transformNodes :: s.skeletonsArr ::
    (s.skeletonBones ++ s.others)

/-- A container is well formed over a heap when all its stored references
are valid. -/
def HeapWF {ν : Type} (h : Heap ν) (s : HeapScene) : Prop :=
  ∀ r ∈ storedRefs s, r < h.arrays.length

/-- AbstractScene.getNodes at the allocation level: let nodes = new Array()
allocates, each nodes.concat(...) reads and allocates afresh, and the last
allocated array is returned. -/
def getNodesH {ν : Type} (h : Heap ν) (s : HeapScene) : Heap ν × Nat :=
  let hn0 := allocArr h []
  let hn1 := concatArr hn0.1 hn0.2 s.meshes
  let hn2 := concatArr hn1.1 hn1.2 s.lights
  let hn3 := concatArr hn2.1 hn2.2 s.cameras
  let hn4 := concatArr hn3.1 hn3.2 s.transformNodes
  s.skeletonBones.foldl (fun hn b => concatArr hn.1 hn.2 b) hn4

/-- The heap only grows by allocation: the new heap extends the old one. -/
def HeapLe {ν : Type} (h h' : Heap ν) : Prop :=
  ∃ t, h'.arrays = h.arrays ++ t

theorem heapLe_refl {ν : Type} (h : Heap ν) : HeapLe h h :=
  ⟨[], by simp⟩

theorem heapLe_trans {ν : Type} {h1 h2 h3 : Heap ν} (a : HeapLe h1 h2)
    (b : HeapLe h2 h3) : HeapLe h1 h3 := by
  obtain ⟨t, ht⟩ := a
  obtain ⟨u, hu⟩ := b
  exact ⟨t ++ u, by simp [hu, ht]⟩

theorem heapLe_alloc {ν : Type} (h : Heap ν) (contents : List ν) :
    HeapLe h (allocArr h contents).1 :=
  ⟨[contents], rfl⟩

theorem heapLe_length {ν : Type} {h h' : Heap ν} (a : HeapLe h h') :
    h.arrays.length ≤ h'.arrays.length := by
  obtain ⟨t, ht⟩ := a
  simp [ht]

theorem readList_append {ν : Type} (l t : List (List ν)) (r : Nat)
    (hr : r < l.length) : readList (l ++ t) r = readList l r := by
  induction l generalizing r with
  | nil => simp at hr
  | cons hd tl ih =>
    cases r with
    | zero => rfl
    | succ r =>
      simp only [List.length_cons, Nat.succ_lt_succ_iff] at hr
      exact ih r hr

theorem readArr_of_heapLe {ν : Type} {h h' : Heap ν} (a : HeapLe h h') (r : Nat)
    (hr : r < h.arrays.length) : readArr h' r = readArr h r := by
  obtain ⟨t, ht⟩ := a
  simp [readArr, ht, readList_append _ _ _ hr]

theorem readList_writeList_ne {ν : Type} (l : List (List ν)) (r w : Nat)
    (x : List ν) (hne : w ≠ r) : readList (writeList l w x) r = readList l r := by
  induction l generalizing r w with
  | nil => rfl
  | cons hd tl ih =>
    cases w with
    | zero =>
      cases r with
      | zero => exact absurd rfl hne
      | succ r => rfl
    | succ w =>
      cases r with
      | zero => rfl
      | succ r => exact ih r w (fun hh => hne (by rw [hh]))

theorem readArr_writeArr_ne {ν : Type} (h : Heap ν) (r w : Nat) (x : List ν)
    (hne : w ≠ r) : readArr (writeArr h w x) r = readArr h r :=
  readList_writeList_ne h.arrays r w x hne

/-- Invariant carried through the concat chain of getNodesH: the heap has
only grown from the original one, and the current result reference is fresh
(at or above the original heap length) and valid in the current heap. -/
def FreshIn {ν : Type} (h : Heap ν) (hn : Heap ν × Nat) : Prop :=
  HeapLe h hn.1 ∧ h.arrays.length ≤ hn.2 ∧ hn.2 < hn.1.arrays.length

theorem freshIn_concatArr {ν : Type} {h : Heap ν} {hn : Heap ν × Nat}
    (hf : FreshIn h hn) (src : Nat) : FreshIn h (concatArr hn.1 hn.2 src) := by
  obtain ⟨hle, hlo, hhi⟩ := hf
  refine ⟨heapLe_trans hle (heapLe_alloc hn.1 _), ?_, ?_⟩
  · exact Nat.le_trans (heapLe_length hle) (Nat.le_refl _)
  · simp [concatArr, allocArr]

theorem freshIn_foldl {ν : Type} (h : Heap ν) (bs : List Nat) (hn : Heap ν × Nat)
    (hf : FreshIn h hn) :
    FreshIn h (bs.foldl (fun acc b => concatArr acc.1 acc.2 b) hn) := by
  induction bs generalizing hn with
  | nil => exact hf
  | cons b tl ih => exact ih _ (freshIn_concatArr hf b)

theorem getNodesH_fresh {ν : Type} (h : Heap ν) (s : HeapScene) :
    FreshIn h (getNodesH h s) := by
  have h0 : FreshIn h (allocArr h []) := by
    refine ⟨heapLe_alloc h [], Nat.le_refl _, ?_⟩
    simp [allocArr]
  exact freshIn_foldl h s.skeletonBones _
    (freshIn_concatArr (freshIn_concatArr (freshIn_concatArr
      (freshIn_concatArr h0 s.meshes) s.lights) s.cameras) s.transformNodes)

/-- Claim C7: over a well-formed container, two successive getNodes calls
return distinct, freshly allocated arrays — each returned reference differs
from every reference the container stores — and overwriting either returned
array afterwards leaves the contents of every stored sequence exactly as
they were before the first call. -/
theorem getNodes_snapshot {ν : Type} (h : Heap ν) (s : HeapScene)
    (hwf : HeapWF h s) :
    (getNodesH h s).2 ≠ (getNodesH (getNodesH h s).1 s).2 ∧
    (∀ r ∈ storedRefs s, (getNodesH h s).2 ≠ r ∧
      (getNodesH (getNodesH h s).1 s).2 ≠ r) ∧
    (∀ (x : List ν), ∀ r ∈ storedRefs s,
      readArr (writeArr (getNodesH (getNodesH h s).1 s).1 (getNodesH h s).2 x) r
        = readArr h r ∧
      readArr (writeArr (getNodesH (getNodesH h s).1 s).1
        (getNodesH (getNodesH h s).1 s).2 x) r = readArr h r) := by
  obtain ⟨le1, lo1, hi1⟩ := getNodesH_fresh h s
  obtain ⟨le2, lo2, hi2⟩ := getNodesH_fresh (getNodesH h s).1 s
  have r1_lt_r2 : (getNodesH h s).2 < (getNodesH (getNodesH h s).1 s).2 :=
    Nat.lt_of_lt_of_le hi1 lo2
  have hread : ∀ r ∈ storedRefs s,
      readArr (getNodesH (getNodesH h s).1 s).1 r = readArr h r := by
    intro r hr
    rw [readArr_of_heapLe le2 r (Nat.lt_of_lt_of_le (hwf r hr) (heapLe_length le1))]
    exact readArr_of_heapLe le1 r (hwf r hr)
  refine ⟨Nat.ne_of_lt r1_lt_r2, fun r hr => ?_, fun x r hr => ?_⟩
  · exact ⟨fun hh => Nat.lt_irrefl _ (hh ▸ Nat.lt_of_lt_of_le (hwf r hr) lo1),
      fun hh => Nat.lt_irrefl _ (hh ▸ Nat.lt_of_lt_of_le
        (Nat.lt_of_lt_of_le (hwf r hr) (heapLe_length le1)) lo2)⟩
  · constructor
    · rw [readArr_writeArr_ne _ r _ x
        (fun hh => Nat.lt_irrefl _ (hh ▸ Nat.lt_of_lt_of_le (hwf r hr) lo1))]
      exact hread r hr
    · rw [readArr_writeArr_ne _ r _ x
        (fun hh => Nat.lt_irrefl _ (hh ▸ Nat.lt_of_lt_of_le
          (Nat.lt_of_lt_of_le (hwf r hr) (heapLe_length le1)) lo2))]
      exact hread r hr

/-- Witness for claim C7 on a concrete heap and container: seven stored
arrays, two getNodes calls, a write to the first result. -/
theorem getNodes_snapshot_witness :
    HeapWF (⟨[[1], [2], [3], [4], [], [5], [6]]⟩ : Heap Nat)
      (⟨0, 1, 2, 3, 4, [5], [6]⟩ : HeapScene) ∧
    (getNodesH (⟨[[1], [2], [3], [4], [], [5], [6]]⟩ : Heap Nat)
        (⟨0, 1, 2, 3, 4, [5], [6]⟩ : HeapScene)).2 ≠
      (getNodesH (getNodesH (⟨[[1], [2], [3], [4], [], [5], [6]]⟩ : Heap Nat)
        (⟨0, 1, 2, 3, 4, [5], [6]⟩ : HeapScene)).1
        (⟨0, 1, 2, 3, 4, [5], [6]⟩ : HeapScene)).2 ∧
    readArr (writeArr (getNodesH (getNodesH (⟨[[1], [2], [3], [4], [], [5], [6]]⟩ :
          Heap Nat) (⟨0, 1, 2, 3, 4, [5], [6]⟩ : HeapScene)).1
        (⟨0, 1, 2, 3, 4, [5], [6]⟩ : HeapScene)).1
      (getNodesH (⟨[[1], [2], [3], [4], [], [5], [6]]⟩ : Heap Nat)
        (⟨0, 1, 2, 3, 4, [5], [6]⟩ : HeapScene)).2 [9]) 0
      = readArr (⟨[[1], [2], [3], [4], [], [5], [6]]⟩ : Heap Nat) 0 := by
  have hwf : HeapWF (⟨[[1], [2], [3], [4], [], [5], [6]]⟩ : Heap Nat)
      (⟨0, 1, 2, 3, 4, [5], [6]⟩ : HeapScene) := by
    intro r hr
    simp only [storedRefs, List.mem_cons, List.mem_append] at hr
    rcases hr with h | h | h | h | h | h
    all_goals simp_all [Heap.arrays]
    rcases h with h | h
    all_goals simp_all
  refine ⟨hwf, (getNodes_snapshot _ _ hwf).1, ?_⟩
  exact ((getNodes_snapshot _ _ hwf).2.2 [9] 0 (by simp [storedRefs])).1

/-
Prototype-aware model of the registry objects.  The two registry maps are
plain object literals, so their property reads and writes carry the full
JavaScript object semantics:
- a read obj[name] that misses the own properties continues into the
  prototype chain, which for a fresh object literal is Object.prototype,
  whose members (toString, valueOf, hasOwnProperty, ...) are functions and
  hence truthy;
- a write obj[name] = parser with name equal to __proto__ does not create
  an own entry: it triggers the accessor inherited from Object.prototype
  and replaces the object's prototype with the parser function, after
  which reads fall through the function's chain (Function.prototype, then
  Object.prototype).
The simple association-list model above drops both behaviors; the claims
whose truth value depends on them are settled against this refinement.
-/

/-- A JavaScript value as far as the registry operations can observe it: a
stored parser function, a built-in function identified by its canonical
path, or the Object.prototype object itself (yielded by the inherited
proto accessor).  Every one of these values is truthy. -/
inductive JSValue (P : Type) where
  | parserFn (p : P)
  | builtinFn (id : String)
  | objectProtoObj
deriving DecidableEq

/-- The function-valued own members of Object.prototype fixed by the
ECMAScript specification, by canonical name; the inherited proto accessor
is handled separately in jsGet/jsSet. -/
def objectProtoMemberId (n : String) : Option String :=
  if n = "constructor" then some "Object"
  else if n = "hasOwnProperty" then some "Object.prototype.hasOwnProperty"
  else if n = "isPrototypeOf" then some "Object.prototype.isPrototypeOf"
  else if n = "propertyIsEnumerable" then some "Object.prototype.propertyIsEnumerable"
  else if n = "toLocaleString" then some "Object.prototype.toLocaleString"
  else if n = "toString" then some "Object.prototype.toString"
  else if n = "valueOf" then some "Object.prototype.valueOf"
  else if n = "__defineGetter__" then some "Object.prototype.__defineGetter__"
  else if n = "__defineSetter__" then some "Object.prototype.__defineSetter__"
  else if n = "__lookupGetter__" then some "Object.prototype.__lookupGetter__"
  else if n = "__lookupSetter__" then some "Object.prototype.__lookupSetter__"
  else none

def objectProtoMember {P : Type} (n : String) : Option (JSValue P) :=
  (objectProtoMemberId n).map JSValue.builtinFn

/-- The function-valued own members of Function.prototype fixed by the
ECMAScript specification, by canonical name. -/
def functionProtoMemberId (n : String) : Option String :=
  if n = "apply" then some "Function.prototype.apply"
  else if n = "bind" then some "Function.prototype.bind"
  else if n = "call" then some "Function.prototype.call"
  else if n = "toString" then some "Function.prototype.toString"
  else if n = "constructor" then some "Function"
  else none

/-- Chain lookup once the prototype has been replaced by a parser function:
Function.prototype members shadow Object.prototype members.  The parser
function's own non-function properties (length, name, prototype) are not
modelled; no statement below reads a name where they would be consulted. -/
def replacedProtoMember {P : Type} (n : String) : Option (JSValue P) :=
  match functionProtoMemberId n with
  | some id => some (JSValue.builtinFn id)
  | none => objectProtoMember n

/-- A registry object at the prototype-aware level: its own enumerable
properties in insertion order, and its prototype - none for the original
Object.prototype of the object literal, or the parser function assigned
through the inherited proto setter. -/
structure JSObject (P : Type) where
  own : List (String × JSValue P)
  proto : Option P

/-- A fresh object literal: no own properties, prototype Object.prototype. -/
def jsEmpty {P : Type} : JSObject P := ⟨[], none⟩

/-- Property write obj[n] = p for a parser function p: the name __proto__
finds no own entry (none is ever created under it) and triggers the
inherited accessor, replacing the prototype; any other name creates or
updates an own entry in place. -/
def jsSet {P : Type} (o : JSObject P) (n : String) (p : P) : JSObject P :=
  if n = "__proto__" then { o with proto := some p }
  else { o with own := assocSet o.own n (JSValue.parserFn p) }

/-- Property read obj[n]: own properties shadow the chain; a miss continues
with the inherited proto accessor (which yields the current prototype) and
then the rest of the prototype chain. -/
def jsGet {P : Type} (o : JSObject P) (n : String) : Option (JSValue P) :=
  match assocGet o.own n with
  | some v => some v
  | none =>
    if n = "__proto__" then
      match o.proto with
      | none => some JSValue.objectProtoObj
      | some p => some (JSValue.parserFn p)
    else
      match o.proto with
      | none => objectProtoMember n
      | some _ => replacedProtoMember n

/-- The static registry state at the prototype-aware level. -/
structure JSParserRegistry (P Q : Type) where
  _BabylonFileParsers : JSObject P
  _IndividualBabylonFileParsers : JSObject Q

/-- The initial registry state: two fresh object literals. -/
def jsEmptyRegistry {P Q : Type} : JSParserRegistry P Q := ⟨jsEmpty, jsEmpty⟩

/-- AbstractScene.AddParser at the prototype-aware level. -/
def AddParserJS {P Q : Type} (reg : JSParserRegistry P Q) (name : String) (parser : P) :
    JSParserRegistry P Q :=
  { reg with _BabylonFileParsers := jsSet reg._BabylonFileParsers name parser }

/-- AbstractScene.GetParser at the prototype-aware level: the if test reads
this._BabylonFileParsers[name] through the prototype chain; every value
that read can produce is a function or an object, hence truthy, so the
test passes exactly when the read finds a value. -/
def GetParserJS {P Q : Type} (reg : JSParserRegistry P Q) (name : String) :
    Option (JSValue P) :=
  match jsGet reg._BabylonFileParsers name with
  | some v => some v
  | none => none

/-- AbstractScene.AddIndividualParser at the prototype-aware level. -/
def AddIndividualParserJS {P Q : Type} (reg : JSParserRegistry P Q) (name : String)
    (parser : Q) : JSParserRegistry P Q :=
  { reg with _IndividualBabylonFileParsers := jsSet reg._IndividualBabylonFileParsers name parser }

/-- AbstractScene.GetIndividualParser at the prototype-aware level. -/
def GetIndividualParserJS {P Q : Type} (reg : JSParserRegistry P Q) (name : String) :
    Option (JSValue Q) :=
  match jsGet reg._IndividualBabylonFileParsers name with
  | some v => some v
  | none => none

theorem jsSet_own_ne {P : Type} (o : JSObject P) (n : String) (p : P)
    (hn : n ≠ "__proto__") :
    (jsSet o n p).own = assocSet o.own n (JSValue.parserFn p) := by
  simp [jsSet, hn]

theorem jsSet_proto_ne {P : Type} (o : JSObject P) (n : String) (p : P)
    (hn : n ≠ "__proto__") : (jsSet o n p).proto = o.proto := by
  simp [jsSet, hn]

theorem jsGet_jsSet_ne {P : Type} (o : JSObject P) (n m : String) (p : P)
    (hn : n ≠ "__proto__") (hm : m ≠ n) :
    jsGet (jsSet o n p) m = jsGet o m := by
  simp only [jsGet, jsSet_own_ne o n p hn, jsSet_proto_ne o n p hn,
    assocGet_assocSet_ne o.own n m _ hm]

/-- Counterexample for claim C6 as stated: on a fresh registry, the
never-registered name toString resolves through the prototype chain to the
inherited, truthy Object.prototype.toString, so GetParser returns it
rather than null. -/
theorem getParser_unregistered_counterexample :
    GetParserJS (jsEmptyRegistry : JSParserRegistry Nat Nat) "toString"
      = some (JSValue.builtinFn "Object.prototype.toString") ∧
    GetParserJS (jsEmptyRegistry : JSParserRegistry Nat Nat) "toString" ≠ none ∧
    GetIndividualParserJS (jsEmptyRegistry : JSParserRegistry Nat Nat) "toString" ≠ none := by
  refine ⟨rfl, ?_, ?_⟩ <;> decide

/-- Claim C6 (amended: restricted to names that do not collide with the
members inherited from Object.prototype): for every name n that was never
registered, is not the proto accessor name, and is not an inherited
Object.prototype member, and provided no assignment has replaced either
registry's prototype, GetParser(n) and GetIndividualParser(n) return none;
the lookups are total functions, so no exception can be raised. -/
theorem getParser_unregistered_amended {P Q : Type} (reg : JSParserRegistry P Q)
    (n : String)
    (hp1 : reg._BabylonFileParsers.proto = none)
    (hp2 : reg._IndividualBabylonFileParsers.proto = none)
    (h1 : n ∉ reg._BabylonFileParsers.own.map Prod.fst)
    (h2 : n ∉ reg._IndividualBabylonFileParsers.own.map Prod.fst)
    (hn : n ≠ "__proto__")
    (hop : objectProtoMemberId n = none) :
    GetParserJS reg n = none ∧ GetIndividualParserJS reg n = none := by
  constructor
  · simp [GetParserJS, jsGet, assocGet_eq_none_of_not_mem _ _ h1, hp1, hn,
      objectProtoMember, hop]
  · simp [GetIndividualParserJS, jsGet, assocGet_eq_none_of_not_mem _ _ h2, hp2, hn,
      objectProtoMember, hop]

/-- Witness for amended claim C6 at a concrete registry and name. -/
theorem getParser_unregistered_amended_witness :
    ("b" ∉ (jsEmpty : JSObject Nat).own.map Prod.fst) ∧
    ("b" : String) ≠ "__proto__" ∧
    objectProtoMemberId "b" = none ∧
    GetParserJS (jsEmptyRegistry : JSParserRegistry Nat Nat) "b" = none := by
  refine ⟨by decide, by decide, by decide, ?_⟩
  exact (getParser_unregistered_amended (jsEmptyRegistry : JSParserRegistry Nat Nat) "b"
    rfl rfl (by decide) (by decide) (by decide) (by decide)).1

/-- Counterexample for claim C9 as stated: registering under the name
__proto__ replaces the registry object's prototype with the parser, which
changes GetParser at the distinct name toString from the inherited
Object.prototype.toString to Function.prototype.toString. -/
theorem registries_disjoint_counterexample :
    GetParserJS (jsEmptyRegistry : JSParserRegistry Nat Nat) "toString"
      = some (JSValue.builtinFn "Object.prototype.toString") ∧
    GetParserJS (AddParserJS (jsEmptyRegistry : JSParserRegistry Nat Nat) "__proto__" 5)
        "toString" = some (JSValue.builtinFn "Function.prototype.toString") ∧
    GetParserJS (AddParserJS (jsEmptyRegistry : JSParserRegistry Nat Nat) "__proto__" 5)
        "toString"
      ≠ GetParserJS (jsEmptyRegistry : JSParserRegistry Nat Nat) "toString" := by
  refine ⟨rfl, rfl, ?_⟩
  decide

/-- Claim C9 (amended: restricted to registration names other than the
proto accessor name): for every name n other than __proto__, AddParser(n, p)
changes only the whole-scene entry for n - every lookup at a name distinct
from n, and every individual lookup, is unchanged - and symmetrically for
AddIndividualParser: the two registries are disjoint state. -/
theorem registries_disjoint_amended {P Q : Type} (reg : JSParserRegistry P Q)
    (n : String) (p : P) (q : Q) (hn : n ≠ "__proto__") :
    (∀ m, m ≠ n → GetParserJS (AddParserJS reg n p) m = GetParserJS reg m) ∧
    (∀ k, GetIndividualParserJS (AddParserJS reg n p) k = GetIndividualParserJS reg k) ∧
    (∀ k, GetParserJS (AddIndividualParserJS reg n q) k = GetParserJS reg k) ∧
    (∀ m, m ≠ n → GetIndividualParserJS (AddIndividualParserJS reg n q) m
      = GetIndividualParserJS reg m) := by
  refine ⟨fun m hm => ?_, fun k => ?_, fun k => ?_, fun m hm => ?_⟩
  · simp [GetParserJS, AddParserJS, jsGet_jsSet_ne _ _ _ _ hn hm]
  · simp [GetIndividualParserJS, AddParserJS]
  · simp [GetParserJS, AddIndividualParserJS]
  · simp [GetIndividualParserJS, AddIndividualParserJS, jsGet_jsSet_ne _ _ _ _ hn hm]

/-- Witness for amended claim C9 at a concrete registry and names. -/
theorem registries_disjoint_amended_witness :
    ("x" : String) ≠ "__proto__" ∧
    ("a" : String) ≠ "x" ∧
    GetParserJS (AddParserJS (jsEmptyRegistry : JSParserRegistry Nat Nat) "x" 1) "a"
      = GetParserJS (jsEmptyRegistry : JSParserRegistry Nat Nat) "a" ∧
    GetIndividualParserJS (AddParserJS (jsEmptyRegistry : JSParserRegistry Nat Nat) "x" 1) "c"
      = GetIndividualParserJS (jsEmptyRegistry : JSParserRegistry Nat Nat) "c" := by
  refine ⟨by decide, by decide, ?_, ?_⟩
  · exact (registries_disjoint_amended (jsEmptyRegistry : JSParserRegistry Nat Nat)
      "x" 1 2 (by decide)).1 "a" (by decide)
  · exact (registries_disjoint_amended (jsEmptyRegistry : JSParserRegistry Nat Nat)
      "x" 1 2 (by decide)).2.1 "c"

end AbstractSceneSpec
